import Mathlib

/-!
Shallow embedding of the dependency security analysis engine of the
koishi-registry repository: the retrying fetch client (src/utils/fetcher.js),
the metadata-graph dependency scanner (src/utils/dependency-analyzer.ts) and
the sandbox-install scanner (the unnamed TypeScript analyzer source), together
with theorems settling the frozen specification claims.

JavaScript objects are embedded as association lists with last-write-wins
update, JS Sets as lists, machine integers as Nat, and the network and
filesystem as explicit world parameters.  Async/await sequencing is embedded
as explicit state passing; the batched Promise.all over dependency slices is
sequentialized in declaration order.
-/

/-- Analysis result record.  The analyzedAt Date is embedded as a Nat clock
reading; the optional error field as an Option String. -/
structure AnalysisResult where
  isInsecure : Bool
  insecurePackages : List String
  analyzedAt : Nat
  error : Option String := none
deriving DecidableEq, Repr

/-- The hard-coded unsafe dependency set shared by both analyzers. -/
def UNSAFE_DEPENDENCIES : List String := ["sharp", "puppeteer", "canvas"]

/-- One conditional check-and-append step: when the flag holds, set
isInsecure and append the name unless already present.  This is the body of
each of the two if-blocks repeated in both analyzers. -/
def checkOne (r : AnalysisResult) (name : String) (inSet : Bool) : AnalysisResult :=
  if inSet then
    { r with
        isInsecure := true,
        insecurePackages :=
          if name ∈ r.insecurePackages then r.insecurePackages
          else r.insecurePackages ++ [name] }
  else r

/-- Check one dependency name against the hard-coded unsafe set and then the
externally loaded insecure set, exactly in the order the source performs the
two if-statements. -/
def checkName (badSet : List String) (r : AnalysisResult) (name : String) : AnalysisResult :=
  checkOne (checkOne r name (name ∈ UNSAFE_DEPENDENCIES)) name (name ∈ badSet)

/-- JS Map.get on the analysis cache, embedded over an association list in
insertion order. -/
def cacheGet : List (String × AnalysisResult) → String → Option AnalysisResult
  | [], _ => none
  | p :: rest, k => if p.1 = k then some p.2 else cacheGet rest k

/-- JS Map.set on the analysis cache: overwrite in place or append. -/
def cacheSet : List (String × AnalysisResult) → String → AnalysisResult →
    List (String × AnalysisResult)
  | [], k, v => [(k, v)]
  | p :: rest, k, v => if p.1 = k then (k, v) :: rest else p :: cacheSet rest k v

/-- The result invariant studied by the implicit claim: the insecure flag
holds exactly when at least one insecure package name was recorded. -/
def ResultInv (r : AnalysisResult) : Prop :=
  r.isInsecure = true ↔ r.insecurePackages ≠ []

namespace Fetcher

/-- An HTTP response as the retry loop observes it: its status code, the
parsed integer value of a Retry-After header when one is present and numeric,
and an opaque body. -/
structure HttpResp where
  status : Nat
  retryAfter : Option Nat := none
  body : String := ""
deriving DecidableEq, Repr

/-- Outcome of one underlying fetch call: a response, a connection-reset
rejection, or some other rejection carrying only a message. -/
inductive NetAttempt
  | resp (r : HttpResp)
  | connReset
  | otherErr (msg : String)
deriving DecidableEq, Repr

/-- What fetchWithRetry returns on success: the parsed JSON body when
returnJson is set, otherwise the raw response. -/
inductive FetchValue
  | json (body : String)
  | raw (r : HttpResp)
deriving DecidableEq, Repr

/-- A thrown JS error as the catch block inspects it: cause.status,
cause.retryAfter in milliseconds (0 when the header was absent), whether the
message contains ECONNRESET, and the message. -/
structure JsError where
  status : Option Nat
  retryAfterMs : Nat
  conn : Bool
  msg : String
deriving DecidableEq, Repr

/-- Overall outcome of a fetchWithRetry call: a normally returned value, a
raised error, or a normal return of undefined when the loop runs out without
either returning or throwing. -/
inductive FetchResult
  | value (v : FetchValue)
  | thrown (e : JsError)
  | undef
deriving DecidableEq, Repr

/-- res.ok: status in the 2xx range. -/
def respOk (status : Nat) : Bool := 200 ≤ status && status < 300

/-- One iteration of the try block: run the fetch operation (throwing the
special 429 error when the status is 429), then throw on any other non-2xx
status except 404, and otherwise return either the parsed body or the raw
response. -/
def attemptEval (returnJson : Bool) (a : NetAttempt) : Except JsError FetchValue :=
  match a with
  | .connReset =>
      .error { status := none, retryAfterMs := 0, conn := true, msg := "ECONNRESET" }
  | .otherErr m =>
      .error { status := none, retryAfterMs := 0, conn := false, msg := m }
  | .resp r =>
      if r.status = 429 then
        .error { status := some 429,
                 retryAfterMs := match r.retryAfter with
                   | some n => n * 1000
                   | none => 0,
                 conn := false,
                 msg := "429 Too Many Requests" }
      else if respOk r.status = false ∧ r.status ≠ 404 then
        .error { status := none, retryAfterMs := 0, conn := false, msg := "HTTP error" }
      else
        .ok (if returnJson then .json r.body else .raw r)

/-- The retry loop from attempt index i with the given number of iterations
still to run, returning the outcome together with the list of waits (in
milliseconds) performed, in order.  The structure mirrors the source catch
block: a 429 waits cause.retryAfter when nonzero and otherwise an exponential
backoff, a connection reset waits the exponential backoff, and any other
error is rethrown on the last attempt and otherwise waits a flat second. -/
def fetchGo (world : Nat → NetAttempt) (returnJson : Bool) :
    Nat → Nat → FetchResult × List Nat
  | _, 0 => (.undef, [])
  | i, fuel + 1 =>
    match attemptEval returnJson (world i) with
    | .ok v => (.value v, [])
    | .error e =>
      if e.status = some 429 then
        let waitTime := if e.retryAfterMs ≠ 0 then e.retryAfterMs else 2 ^ i * 1000
        let next := fetchGo world returnJson (i + 1) fuel
        (next.1, waitTime :: next.2)
      else if e.conn then
        let waitTime := 2 ^ i * 1000
        let next := fetchGo world returnJson (i + 1) fuel
        (next.1, waitTime :: next.2)
      else if fuel = 0 then
        (.thrown e, [])
      else
        let next := fetchGo world returnJson (i + 1) fuel
        (next.1, 1000 :: next.2)

/-- fetchWithRetry: run the loop for retries iterations starting at attempt
index 0. -/
def fetchWithRetry (world : Nat → NetAttempt) (returnJson : Bool) (retries : Nat) :
    FetchResult × List Nat :=
  fetchGo world returnJson 0 retries

/-- Every attempt below the bound fails. -/
def allFail (world : Nat → NetAttempt) (returnJson : Bool) (retries : Nat) : Prop :=
  ∀ i, i < retries → ∃ e, attemptEval returnJson (world i) = .error e

end Fetcher

namespace MetaScan

/-- A per-version manifest as the analyzer reads it: the three dependency
sections, each a JSON object embedded as an association list. -/
structure Manifest where
  dependencies : List (String × String) := []
  peerDependencies : List (String × String) := []
  optionalDependencies : List (String × String) := []
deriving DecidableEq, Repr

/-- Registry metadata for one package: dist-tags.latest when present, and the
versions object when present. -/
structure PackageMeta where
  latest : Option String := none
  versions : Option (List (String × Manifest)) := none
deriving DecidableEq, Repr

/-- Result of a fetchWithRetry call for a package metadata URL: either the
call throws with some message, or it returns parsed metadata. -/
inductive FetchReply
  | throws (msg : String)
  | meta (m : PackageMeta)
deriving DecidableEq, Repr

/-- The scan environment: the network (package name to fetch reply) and the
externally loaded insecure package set. -/
structure ScanEnv where
  registry : String → FetchReply
  badSet : List String

/-- Process-global mutable state of the analyzer module: the analysis cache,
a clock for Date readings, and a log of every metadata fetch issued as a pair
of the fetched key and its node level below the root. -/
structure ScanState where
  cache : List (String × AnalysisResult) := []
  now : Nat := 0
  fetchLog : List (String × Nat) := []
deriving DecidableEq, Repr

/-- JS object update: overwrite the value at an existing key in place, or
append a fresh key. -/
def setKey (o : List (String × String)) (k v : String) : List (String × String) :=
  if o.any (fun p => p.1 = k) then o.map (fun p => if p.1 = k then (k, v) else p)
  else o ++ [(k, v)]

/-- JS object built by spreading the listed entries into a fresh object:
first occurrence fixes the position of a key, last occurrence its value. -/
def objOf (l : List (String × String)) : List (String × String) :=
  l.foldl (fun o p => setKey o p.1 p.2) []

/-- The merged dependency object of a manifest, spreading dependencies, then
peerDependencies, then optionalDependencies. -/
def allDepsOf (m : Manifest) : List (String × String) :=
  objOf (m.dependencies ++ m.peerDependencies ++ m.optionalDependencies)

/-- Index into the versions object. -/
def lookupObj (vs : List (String × Manifest)) (v : String) : Option Manifest :=
  (vs.find? (fun p => p.1 = v)).map (fun p => p.2)

/-- pkgData.versions and pkgData.versions-of-version in one step: none when
the versions object is absent or the requested version has no manifest. -/
def versionLookup (m : PackageMeta) (v : String) : Option Manifest :=
  match m.versions with
  | none => none
  | some vs => lookupObj vs v

/-- The mutable state threaded through traverseDependencies: the result
under construction, the visited set of name-at-range edge keys, and the log
of fetches issued as pairs of edge key and node level. -/
structure TravAcc where
  result : AnalysisResult
  visited : List String
  log : List (String × Nat)
deriving DecidableEq, Repr

/-- The body run for one dependency entry inside the batched Promise.all:
check the name against both sets, skip the edge when its key was already
visited, and otherwise mark it visited, fetch its metadata (logging the
fetch), and recurse into the latest version's regular dependencies when the
fetch and the version lookup succeed.  A throwing fetch is caught and the
edge contributes nothing further.  The recursion one level deeper is passed
in as the recurse argument. -/
def traverseOne (env : ScanEnv)
    (recurse : Nat → List (String × String) → TravAcc → TravAcc)
    (cd : Nat) (depName range : String) (acc : TravAcc) : TravAcc :=
  let r1 := checkName env.badSet acc.result depName
  let depKey := depName ++ "@" ++ range
  if depKey ∈ acc.visited then { acc with result := r1 }
  else
    let acc1 : TravAcc :=
      { result := r1,
        visited := depKey :: acc.visited,
        log := acc.log ++ [(depKey, cd + 1)] }
    match env.registry depName with
    | .throws _ => acc1
    | .meta m =>
      match m.latest with
      | none => acc1
      | some lv =>
        match m.versions with
        | none => acc1
        | some vs =>
          match lookupObj vs lv with
          | none => acc1
          | some mf =>
            let nested := objOf mf.dependencies
            if nested.isEmpty then acc1
            else recurse (cd + 1) nested acc1

/-- Sequentialized iteration over the dependency entries of one level. -/
def traverseList (env : ScanEnv)
    (recurse : Nat → List (String × String) → TravAcc → TravAcc)
    (cd : Nat) : List (String × String) → TravAcc → TravAcc
  | [], acc => acc
  | (n, rg) :: rest, acc =>
      traverseList env recurse cd rest (traverseOne env recurse cd n rg acc)

/-- traverseDependencies, with the depth guard currentDepth at maxDepth or
beyond embedded as a fuel argument equal to maxDepth minus currentDepth: at
fuel zero the call returns its accumulator untouched, exactly as the source
returns before processing any entry. -/
def traverseDependencies (env : ScanEnv) :
    Nat → Nat → List (String × String) → TravAcc → TravAcc
  | 0, _, _, acc => acc
  | fuel + 1, cd, deps, acc =>
      traverseList env (fun cd2 => traverseDependencies env fuel cd2) cd deps acc

/-- The metadata-graph analyzePackageDependencies: cache lookup, the check of
the package name itself against the insecure list, the root metadata fetch,
the version manifest lookup, the direct-dependency check loop, and the
depth-bounded traversal seeded with the cache key in the visited set.  Every
non-cached path stores its result in the cache before returning, and a
throwing root fetch is caught into the error field. -/
def analyzePackageDependencies (env : ScanEnv) (packageName version : String)
    (st : ScanState) : AnalysisResult × ScanState :=
  let cacheKey := packageName ++ "@" ++ version
  match cacheGet st.cache cacheKey with
  | some cached => (cached, st)
  | none =>
    let r0 : AnalysisResult :=
      { isInsecure := false, insecurePackages := [], analyzedAt := st.now, error := none }
    let st1 : ScanState := { st with now := st.now + 1 }
    if packageName ∈ env.badSet then
      let r : AnalysisResult := { r0 with isInsecure := true, insecurePackages := [packageName] }
      (r, { st1 with cache := cacheSet st1.cache cacheKey r })
    else
      let st2 : ScanState := { st1 with fetchLog := st1.fetchLog ++ [(cacheKey, 0)] }
      match env.registry packageName with
      | .throws msg =>
        let r : AnalysisResult := { r0 with error := some msg }
        (r, { st2 with cache := cacheSet st2.cache cacheKey r })
      | .meta m =>
        match versionLookup m version with
        | none =>
          let r : AnalysisResult := { r0 with error := some "Package version not found" }
          (r, { st2 with cache := cacheSet st2.cache cacheKey r })
        | some vi =>
          let allDeps := allDepsOf vi
          let r1 := allDeps.foldl (fun r p => checkName env.badSet r p.1) r0
          let acc0 : TravAcc := { result := r1, visited := [cacheKey], log := [] }
          let acc1 := traverseDependencies env 3 0 allDeps acc0
          (acc1.result,
            { st2 with
                cache := cacheSet st2.cache cacheKey acc1.result,
                fetchLog := st2.fetchLog ++ acc1.log })

/-- clearAnalysisCache. -/
def clearAnalysisCache (st : ScanState) : ScanState := { st with cache := [] }

/-- getAnalysisCacheSize. -/
def getAnalysisCacheSize (st : ScanState) : Nat := st.cache.length

end MetaScan

namespace SandboxScan

/-- The world one sandbox scan runs against: the insecure set, the outcomes
of the mkdtemp, manifest write and yarn install steps, whether a node-modules
directory exists afterwards, the package names its enumeration yields, and
whether the final recursive removal succeeds. -/
structure SandboxWorld where
  badSet : List String
  mkdtempRes : Except String String
  writeRes : Except String Unit := .ok ()
  installRes : Except String Unit := .ok ()
  nodeModulesAccessible : Bool := true
  installedPkgs : List String := []
  rmOk : Bool := true

/-- Process-global state of the sandbox analyzer module. -/
structure SandboxState where
  cache : List (String × AnalysisResult) := []
  now : Nat := 0
deriving DecidableEq, Repr

/-- Filesystem events a sandbox scan can emit, in order: temporary directory
creation, the install subprocess invocation, and the removal attempt with its
success flag. -/
inductive FsEvent
  | mkdtempDone (dir : String)
  | installTried
  | rmTried (dir : String) (ok : Bool)
deriving DecidableEq, Repr

/-- The try block of the sandbox analyzePackageDependencies: the insecure
check of the package itself, temporary directory creation, manifest write,
the guarded yarn install whose failure is recorded in the error field rather
than rethrown, the node-modules existence probe, and the check loop over the
enumerated installed packages.  Returns the outcome of the block (a result or
an uncaught thrown message), the tempDir variable as the finally block sees
it, and the events emitted so far. -/
def analyzeBody (w : SandboxWorld) (packageName : String) (r0 : AnalysisResult) :
    Except String AnalysisResult × Option String × List FsEvent :=
  if packageName ∈ w.badSet then
    (.ok { r0 with isInsecure := true, insecurePackages := [packageName] }, none, [])
  else
    match w.mkdtempRes with
    | .error e => (.error e, none, [])
    | .ok dir =>
      match w.writeRes with
      | .error e => (.error e, some dir, [.mkdtempDone dir])
      | .ok _ =>
        match w.installRes with
        | .error msg =>
          (.ok { r0 with error := some ("Installation failed: " ++ msg) }, some dir,
            [.mkdtempDone dir, .installTried])
        | .ok _ =>
          if w.nodeModulesAccessible = false then
            (.ok r0, some dir, [.mkdtempDone dir, .installTried])
          else
            let r := w.installedPkgs.foldl (fun r p => checkName w.badSet r p) r0
            (.ok r, some dir, [.mkdtempDone dir, .installTried])

/-- The sandbox analyzePackageDependencies: cache lookup, then the try block,
the catch mapping an uncaught throw to a result carrying the message in its
error field, and the finally block attempting removal of the temporary
directory whenever one was created, swallowing a removal failure.  Every
non-cached path stores its result in the cache. -/
def analyzePackageDependencies (w : SandboxWorld) (packageName version : String)
    (st : SandboxState) : AnalysisResult × SandboxState × List FsEvent :=
  let cacheKey := packageName ++ "@" ++ version
  match cacheGet st.cache cacheKey with
  | some cached => (cached, st, [])
  | none =>
    let r0 : AnalysisResult :=
      { isInsecure := false, insecurePackages := [], analyzedAt := st.now, error := none }
    let st1 : SandboxState := { st with now := st.now + 1 }
    let b := analyzeBody w packageName r0
    let r : AnalysisResult :=
      match b.1 with
      | .ok r => r
      | .error msg => { r0 with error := some msg }
    let evs : List FsEvent :=
      b.2.2 ++ (match b.2.1 with
        | some dir => [.rmTried dir w.rmOk]
        | none => [])
    (r, { st1 with cache := cacheSet st1.cache cacheKey r }, evs)

/-- clearAnalysisCache of the sandbox analyzer module. -/
def clearAnalysisCache (st : SandboxState) : SandboxState := { st with cache := [] }

end SandboxScan

/-- Every result stored in the cache satisfies the flag-to-list invariant. -/
def CacheInv (c : List (String × AnalysisResult)) : Prop := ∀ p ∈ c, ResultInv p.2

namespace MetaScan

/-- The traversal log invariant relative to the initially visited keys: the
logged edge keys are distinct, every logged key has been marked visited, the
initial keys stay visited, and no initial key is ever logged. -/
def LogInv (vis0 : List String) (acc : TravAcc) : Prop :=
  (acc.log.map Prod.fst).Nodup ∧
  (∀ k ∈ acc.log.map Prod.fst, k ∈ acc.visited) ∧
  (∀ k ∈ vis0, k ∈ acc.visited) ∧
  (∀ k ∈ vis0, k ∉ acc.log.map Prod.fst)

/-- Every logged fetch lies at node level at most b. -/
def LogLe (b : Nat) (acc : TravAcc) : Prop := ∀ e ∈ acc.log, e.2 ≤ b

end MetaScan

/-! ## Concrete worlds and environments for witnesses and counterexamples -/

/-- A network world answering every attempt with HTTP 429 and no header. -/
def w429 : Nat → Fetcher.NetAttempt := fun _ => .resp { status := 429 }

/-- A network world answering every attempt with HTTP 500. -/
def w500 : Nat → Fetcher.NetAttempt := fun _ => .resp { status := 500 }

/-- A network world answering every attempt with HTTP 404. -/
def w404 : Nat → Fetcher.NetAttempt := fun _ => .resp { status := 404, body := "nf" }

/-- First attempt 429 with Retry-After 0, then HTTP 200. -/
def wRA0 : Nat → Fetcher.NetAttempt := fun i =>
  if i = 0 then .resp { status := 429, retryAfter := some 0 }
  else .resp { status := 200, body := "ok" }

/-- First attempt 429 with Retry-After 2, then HTTP 200. -/
def wRA2 : Nat → Fetcher.NetAttempt := fun i =>
  if i = 0 then .resp { status := 429, retryAfter := some 2 }
  else .resp { status := 200, body := "ok" }

/-- A two-package registry with the cyclic dependency graph A to B to A. -/
def envAB : MetaScan.ScanEnv :=
  { registry := fun n =>
      if n = "A" then
        .meta { latest := some "1.0.0",
                versions := some [("1.0.0", { dependencies := [("B", "^1.0.0")] })] }
      else if n = "B" then
        .meta { latest := some "1.0.0",
                versions := some [("1.0.0", { dependencies := [("A", "^1.0.0")] })] }
      else .throws "not found",
    badSet := [] }

/-- A sandbox world whose install succeeds and yields three installed
packages, two of them insecure. -/
def wOkSandbox : SandboxScan.SandboxWorld :=
  { badSet := ["evil"],
    mkdtempRes := .ok "/tmp/koishi-security-x",
    installedPkgs := ["lodash", "sharp", "evil"] }

/-- Registry for the C2 counterexample: the package sharp itself exists with
an empty dependency object, and the external insecure set is empty. -/
def envC2 : MetaScan.ScanEnv :=
  { registry := fun n =>
      if n = "sharp" then
        .meta { latest := some "1.0.0", versions := some [("1.0.0", {})] }
      else .throws "not found",
    badSet := [] }

/-- Dependency manifest used by the C2 witness environment. -/
def viC2w : MetaScan.Manifest := { dependencies := [("sharp", "^1.0.0")] }

/-- Package metadata used by the C2 witness environment. -/
def mC2w : MetaScan.PackageMeta :=
  { latest := some "1.0.0", versions := some [("1.0.0", viC2w)] }

/-- Registry for the C2 witness: a scanned package declaring sharp as a
direct dependency. -/
def envC2w : MetaScan.ScanEnv :=
  { registry := fun n => if n = "pkg" then .meta mC2w else .throws "not found",
    badSet := ["evil"] }

/-- Registry for C9: the package exists but only with version 2.0.0, so a
request for 1.0.0 finds no manifest. -/
def envC9 : MetaScan.ScanEnv :=
  { registry := fun n =>
      if n = "a" then .meta { latest := none, versions := some [("2.0.0", {})] }
      else .throws "x",
    badSet := [] }

/-- Registry whose every fetch throws; used by the C4 and C6 witnesses. -/
def envThrow : MetaScan.ScanEnv :=
  { registry := fun _ => .throws "boom", badSet := [] }

/-- Sandbox world whose install subprocess fails; used by the C4 and C6
witnesses. -/
def wInstallFail : SandboxScan.SandboxWorld :=
  { badSet := [], mkdtempRes := .ok "/tmp/d", installRes := .error "boom" }

/-- A cached analysis result and a state carrying it, for the C4 witness. -/
def rC4 : AnalysisResult :=
  { isInsecure := false, insecurePackages := [], analyzedAt := 42, error := none }

/-- Metadata scan state whose cache already holds an entry for p at 1.0.0. -/
def stC4 : MetaScan.ScanState :=
  { cache := [("p@1.0.0", rC4)], now := 43, fetchLog := [] }

/-- A trivial deeper-level traversal continuation for the C6 witness. -/
def recC6 : Nat → List (String × String) → MetaScan.TravAcc → MetaScan.TravAcc :=
  fun _ _ acc => acc

/-- Traversal accumulator for the C6 witness. -/
def accC6 : MetaScan.TravAcc :=
  { result :=
      { isInsecure := false, insecurePackages := [], analyzedAt := 0, error := none },
    visited := [], log := [] }

/-! ### Case analysis of one traversal step -/

namespace MetaScan

/-- One traversal step either only applies the name checks (already-visited
edge), or marks the edge visited and logs its fetch and then either stops
there or recurses one level deeper on some nested dependency object. -/
theorem traverseOne_cases (env : ScanEnv)
    (recurse : Nat → List (String × String) → TravAcc → TravAcc)
    (cd : Nat) (n rg : String) (acc : TravAcc) :
    traverseOne env recurse cd n rg acc =
        { acc with result := checkName env.badSet acc.result n } ∨
    ((n ++ "@" ++ rg) ∉ acc.visited ∧
      (traverseOne env recurse cd n rg acc =
          { result := checkName env.badSet acc.result n,
            visited := (n ++ "@" ++ rg) :: acc.visited,
            log := acc.log ++ [(n ++ "@" ++ rg, cd + 1)] } ∨
        ∃ ds, traverseOne env recurse cd n rg acc =
          recurse (cd + 1) ds
            { result := checkName env.badSet acc.result n,
              visited := (n ++ "@" ++ rg) :: acc.visited,
              log := acc.log ++ [(n ++ "@" ++ rg, cd + 1)] })) := by
  simp only [traverseOne]
  by_cases hv : (n ++ "@" ++ rg) ∈ acc.visited
  · rw [if_pos hv]; left; rfl
  · rw [if_neg hv]
    right
    refine ⟨hv, ?_⟩
    split
    · left; rfl
    · split
      · left; rfl
      · split
        · left; rfl
        · split
          · left; rfl
          · split
            · left; rfl
            · right; exact ⟨_, rfl⟩

end MetaScan

/-! ### Lemmas about the shared check step -/

theorem checkOne_subset {r : AnalysisResult} {d : String} (n : String) (b : Bool)
    (h : d ∈ r.insecurePackages) : d ∈ (checkOne r n b).insecurePackages := by
  unfold checkOne
  split
  · by_cases hn : n ∈ r.insecurePackages <;> simp [hn, h]
  · exact h

theorem checkOne_flag {r : AnalysisResult} (n : String) (b : Bool)
    (h : r.isInsecure = true) : (checkOne r n b).isInsecure = true := by
  unfold checkOne
  split <;> simp [h]

theorem checkOne_self (r : AnalysisResult) (n : String) :
    (checkOne r n true).isInsecure = true ∧ n ∈ (checkOne r n true).insecurePackages := by
  unfold checkOne
  by_cases hn : n ∈ r.insecurePackages <;> simp [hn]

theorem checkOne_nodup {r : AnalysisResult} (n : String) (b : Bool)
    (h : r.insecurePackages.Nodup) : (checkOne r n b).insecurePackages.Nodup := by
  unfold checkOne
  split
  · by_cases hn : n ∈ r.insecurePackages
    · simpa [hn] using h
    · simp only [hn, if_false]
      exact List.Nodup.append h (List.nodup_singleton n)
        ((List.disjoint_singleton).mpr hn)
  · exact h

theorem checkOne_inv {r : AnalysisResult} (n : String) (b : Bool)
    (h : ResultInv r) : ResultInv (checkOne r n b) := by
  unfold checkOne ResultInv
  split
  · by_cases hn : n ∈ r.insecurePackages
    · have : r.insecurePackages ≠ [] := by
        intro hempty
        rw [hempty] at hn
        exact (List.not_mem_nil n) hn
      simp [hn, this]
    · simp [hn]
  · exact h

theorem checkName_subset {r : AnalysisResult} {d : String} (bs : List String) (n : String)
    (h : d ∈ r.insecurePackages) : d ∈ (checkName bs r n).insecurePackages :=
  checkOne_subset n _ (checkOne_subset n _ h)

theorem checkName_flag {r : AnalysisResult} (bs : List String) (n : String)
    (h : r.isInsecure = true) : (checkName bs r n).isInsecure = true :=
  checkOne_flag n _ (checkOne_flag n _ h)

theorem checkName_nodup {r : AnalysisResult} (bs : List String) (n : String)
    (h : r.insecurePackages.Nodup) : (checkName bs r n).insecurePackages.Nodup :=
  checkOne_nodup n _ (checkOne_nodup n _ h)

theorem checkName_inv {r : AnalysisResult} (bs : List String) (n : String)
    (h : ResultInv r) : ResultInv (checkName bs r n) :=
  checkOne_inv n _ (checkOne_inv n _ h)

theorem checkName_self (bs : List String) (r : AnalysisResult) (d : String)
    (h : d ∈ UNSAFE_DEPENDENCIES ∨ d ∈ bs) :
    (checkName bs r d).isInsecure = true ∧ d ∈ (checkName bs r d).insecurePackages := by
  unfold checkName
  rcases h with h | h
  · have h1 := checkOne_self r d
    simp only [decide_eq_true h]
    refine ⟨checkOne_flag d _ h1.1, checkOne_subset d _ h1.2⟩
  · have h1 := checkOne_self (checkOne r d (decide (d ∈ UNSAFE_DEPENDENCIES))) d
    simp only [decide_eq_true h]
    exact h1

/-- Any predicate preserved by each fold step is preserved by the fold. -/
theorem foldl_pres {α : Type} (Φ : AnalysisResult → Prop)
    (step : AnalysisResult → α → AnalysisResult)
    (hstep : ∀ r a, Φ r → Φ (step r a)) :
    ∀ (l : List α) (r : AnalysisResult), Φ r → Φ (l.foldl step r)
  | [], _, h => h
  | a :: rest, r, h => foldl_pres Φ step hstep rest (step r a) (hstep r a h)

/-- Looking up the key just stored yields the stored value. -/
theorem cacheGet_set_self (c : List (String × AnalysisResult)) (k : String)
    (v : AnalysisResult) : cacheGet (cacheSet c k v) k = some v := by
  induction c with
  | nil => simp [cacheSet, cacheGet]
  | cons p rest ih =>
    by_cases hp : p.1 = k
    · simp [cacheSet, cacheGet, hp]
    · simp [cacheSet, cacheGet, hp, ih]

/-- A matching name occurring in the folded list ends up recorded, with the
insecure flag set, whatever step key projection is used. -/
theorem foldl_checkName_self {α : Type} (bs : List String) (f : α → String)
    (d : String) (hd : d ∈ UNSAFE_DEPENDENCIES ∨ d ∈ bs) :
    ∀ (l : List α) (r : AnalysisResult), d ∈ l.map f →
      (l.foldl (fun r a => checkName bs r (f a)) r).isInsecure = true ∧
      d ∈ (l.foldl (fun r a => checkName bs r (f a)) r).insecurePackages := by
  intro l
  induction l with
  | nil => intro r h; exact absurd h (List.not_mem_nil d)
  | cons a rest ih =>
    intro r h
    simp only [List.map_cons, List.mem_cons] at h
    rcases h with h | h
    · subst h
      have h1 := checkName_self bs r (f a) hd
      constructor
      · exact foldl_pres (fun r => r.isInsecure = true) _
          (fun r b => checkName_flag bs (f b)) rest _ h1.1
      · exact foldl_pres (fun r => f a ∈ r.insecurePackages) _
          (fun r b => checkName_subset bs (f b)) rest _ h1.2
    · exact ih _ h

/-! ### Cache helper lemmas -/

theorem cacheGet_mem (c : List (String × AnalysisResult)) (k : String) (r : AnalysisResult)
    (h : cacheGet c k = some r) : ∃ k2, (k2, r) ∈ c := by
  induction c with
  | nil => simp [cacheGet] at h
  | cons p rest ih =>
    by_cases hp : p.1 = k
    · simp only [cacheGet, if_pos hp, Option.some.injEq] at h
      exact ⟨p.1, by rw [← h]; exact List.mem_cons_self _ _⟩
    · simp only [cacheGet, if_neg hp] at h
      obtain ⟨k2, hk2⟩ := ih h
      exact ⟨k2, List.mem_cons_of_mem _ hk2⟩

theorem cacheSet_inv (c : List (String × AnalysisResult)) (k : String) (v : AnalysisResult)
    (hc : CacheInv c) (hv : ResultInv v) : CacheInv (cacheSet c k v) := by
  induction c with
  | nil =>
    intro p hp
    simp only [cacheSet, List.mem_singleton] at hp
    rw [hp]
    exact hv
  | cons q rest ih =>
    by_cases hq : q.1 = k
    · intro p hp
      simp only [cacheSet, if_pos hq] at hp
      rcases List.mem_cons.mp hp with hp | hp
      · rw [hp]; exact hv
      · exact hc p (List.mem_cons_of_mem _ hp)
    · intro p hp
      simp only [cacheSet, if_neg hq] at hp
      rcases List.mem_cons.mp hp with hp | hp
      · rw [hp]; exact hc q (List.mem_cons_self _ _)
      · exact ih (fun p2 hp2 => hc p2 (List.mem_cons_of_mem _ hp2)) p hp

theorem cacheGet_inv (c : List (String × AnalysisResult)) (k : String) (r : AnalysisResult)
    (hc : CacheInv c) (h : cacheGet c k = some r) : ResultInv r := by
  obtain ⟨k2, hk2⟩ := cacheGet_mem c k r h
  exact hc (k2, r) hk2

/-! ### Preservation of result predicates through the traversal -/

namespace MetaScan

theorem traverseOne_result_pres (env : ScanEnv)
    (recurse : Nat → List (String × String) → TravAcc → TravAcc)
    (Φ : AnalysisResult → Prop)
    (hchk : ∀ r n, Φ r → Φ (checkName env.badSet r n))
    (hrec : ∀ cd2 ds acc2, Φ acc2.result → Φ ((recurse cd2 ds acc2).result))
    (cd : Nat) (n rg : String) (acc : TravAcc) (h : Φ acc.result) :
    Φ (traverseOne env recurse cd n rg acc).result := by
  rcases traverseOne_cases env recurse cd n rg acc with heq | ⟨hv, heq | ⟨ds, heq⟩⟩
  · rw [heq]; exact hchk _ _ h
  · rw [heq]; exact hchk _ _ h
  · rw [heq]; exact hrec _ _ _ (hchk _ _ h)

theorem traverseList_result_pres (env : ScanEnv)
    (recurse : Nat → List (String × String) → TravAcc → TravAcc)
    (Φ : AnalysisResult → Prop)
    (hchk : ∀ r n, Φ r → Φ (checkName env.badSet r n))
    (hrec : ∀ cd2 ds acc2, Φ acc2.result → Φ ((recurse cd2 ds acc2).result))
    (cd : Nat) :
    ∀ (deps : List (String × String)) (acc : TravAcc), Φ acc.result →
      Φ (traverseList env recurse cd deps acc).result := by
  intro deps
  induction deps with
  | nil => intro acc h; exact h
  | cons p rest ih =>
    obtain ⟨n, rg⟩ := p
    intro acc h
    exact ih _ (traverseOne_result_pres env recurse Φ hchk hrec cd n rg acc h)

theorem traverseDependencies_result_pres (env : ScanEnv) (Φ : AnalysisResult → Prop)
    (hchk : ∀ r n, Φ r → Φ (checkName env.badSet r n)) :
    ∀ (fuel cd : Nat) (deps : List (String × String)) (acc : TravAcc),
      Φ acc.result → Φ (traverseDependencies env fuel cd deps acc).result := by
  intro fuel
  induction fuel with
  | zero => intro cd deps acc h; exact h
  | succ f ih =>
    intro cd deps acc h
    exact traverseList_result_pres env _ Φ hchk
      (fun cd2 ds acc2 h2 => ih cd2 ds acc2 h2) cd deps acc h

/-! ### The fetch log invariants: distinct edge keys and the depth bound -/

theorem LogInv_step (vis0 : List String) (acc : TravAcc) (r1 : AnalysisResult)
    (k : String) (lvl : Nat) (hv : k ∉ acc.visited) (h : LogInv vis0 acc) :
    LogInv vis0
      { result := r1, visited := k :: acc.visited, log := acc.log ++ [(k, lvl)] } := by
  obtain ⟨hnd, hsub, hvis, hdisj⟩ := h
  have hkey : k ∉ acc.log.map Prod.fst := fun hk => hv (hsub k hk)
  refine ⟨?_, ?_, ?_, ?_⟩
  · simp only [List.map_append, List.map_cons, List.map_nil]
    exact List.Nodup.append hnd (List.nodup_singleton k)
      ((List.disjoint_singleton).mpr hkey)
  · intro k2 hk2
    simp only [List.map_append, List.map_cons, List.map_nil, List.mem_append,
      List.mem_singleton] at hk2
    rcases hk2 with hk2 | hk2
    · exact List.mem_cons_of_mem _ (hsub k2 hk2)
    · rw [hk2]; exact List.mem_cons_self _ _
  · intro k2 hk2
    exact List.mem_cons_of_mem _ (hvis k2 hk2)
  · intro k2 hk2
    simp only [List.map_append, List.map_cons, List.map_nil, List.mem_append,
      List.mem_singleton]
    push_neg
    refine ⟨hdisj k2 hk2, ?_⟩
    intro hkk
    rw [hkk] at hk2
    exact hv (hvis k hk2)

theorem traverseOne_loginv (env : ScanEnv)
    (recurse : Nat → List (String × String) → TravAcc → TravAcc)
    (vis0 : List String) (cd : Nat) (n rg : String) (acc : TravAcc)
    (hrec : ∀ ds acc2, LogInv vis0 acc2 → LogInv vis0 (recurse (cd + 1) ds acc2))
    (h : LogInv vis0 acc) : LogInv vis0 (traverseOne env recurse cd n rg acc) := by
  rcases traverseOne_cases env recurse cd n rg acc with heq | ⟨hv, heq | ⟨ds, heq⟩⟩
  · rw [heq]; exact h
  · rw [heq]; exact LogInv_step vis0 acc _ _ _ hv h
  · rw [heq]; exact hrec _ _ (LogInv_step vis0 acc _ _ _ hv h)

theorem traverseList_loginv (env : ScanEnv)
    (recurse : Nat → List (String × String) → TravAcc → TravAcc)
    (vis0 : List String) (cd : Nat)
    (hrec : ∀ ds acc2, LogInv vis0 acc2 → LogInv vis0 (recurse (cd + 1) ds acc2)) :
    ∀ deps acc, LogInv vis0 acc → LogInv vis0 (traverseList env recurse cd deps acc) := by
  intro deps
  induction deps with
  | nil => intro acc h; exact h
  | cons p rest ih =>
    obtain ⟨n, rg⟩ := p
    intro acc h
    exact ih _ (traverseOne_loginv env recurse vis0 cd n rg acc hrec h)

theorem traverseDependencies_loginv (env : ScanEnv) (vis0 : List String) :
    ∀ (fuel cd : Nat) (deps : List (String × String)) (acc : TravAcc),
      LogInv vis0 acc → LogInv vis0 (traverseDependencies env fuel cd deps acc) := by
  intro fuel
  induction fuel with
  | zero => intro cd deps acc h; exact h
  | succ f ih =>
    intro cd deps acc h
    exact traverseList_loginv env _ vis0 cd
      (fun ds acc2 h2 => ih (cd + 1) ds acc2 h2) deps acc h

theorem traverseOne_logle (env : ScanEnv)
    (recurse : Nat → List (String × String) → TravAcc → TravAcc)
    (b cd : Nat) (n rg : String) (acc : TravAcc) (hcd : cd + 1 ≤ b)
    (hrec : ∀ ds acc2, LogLe b acc2 → LogLe b (recurse (cd + 1) ds acc2))
    (h : LogLe b acc) : LogLe b (traverseOne env recurse cd n rg acc) := by
  have hacc1 : LogLe b
      { result := checkName env.badSet acc.result n,
        visited := (n ++ "@" ++ rg) :: acc.visited,
        log := acc.log ++ [(n ++ "@" ++ rg, cd + 1)] } := by
    intro e he
    simp only [List.mem_append, List.mem_singleton] at he
    rcases he with he | he
    · exact h e he
    · rw [he]; exact hcd
  rcases traverseOne_cases env recurse cd n rg acc with heq | ⟨hv, heq | ⟨ds, heq⟩⟩
  · rw [heq]; exact h
  · rw [heq]; exact hacc1
  · rw [heq]; exact hrec _ _ hacc1

theorem traverseList_logle (env : ScanEnv)
    (recurse : Nat → List (String × String) → TravAcc → TravAcc)
    (b cd : Nat) (hcd : cd + 1 ≤ b)
    (hrec : ∀ ds acc2, LogLe b acc2 → LogLe b (recurse (cd + 1) ds acc2)) :
    ∀ deps acc, LogLe b acc → LogLe b (traverseList env recurse cd deps acc) := by
  intro deps
  induction deps with
  | nil => intro acc h; exact h
  | cons p rest ih =>
    obtain ⟨n, rg⟩ := p
    intro acc h
    exact ih _ (traverseOne_logle env recurse b cd n rg acc hcd hrec h)

theorem traverseDependencies_logle (env : ScanEnv) (b : Nat) :
    ∀ (fuel cd : Nat), fuel + cd ≤ b →
      ∀ deps acc, LogLe b acc → LogLe b (traverseDependencies env fuel cd deps acc) := by
  intro fuel
  induction fuel with
  | zero => intro cd _ deps acc h; exact h
  | succ f ih =>
    intro cd hb deps acc h
    exact traverseList_logle env _ b cd (by omega)
      (fun ds acc2 h2 => ih (cd + 1) (by omega) ds acc2 h2) deps acc h

/-! ### Path equations for the metadata analyzer -/

theorem analyze_hit (env : ScanEnv) (n v : String) (st : ScanState) (r : AnalysisResult)
    (h : cacheGet st.cache (n ++ "@" ++ v) = some r) :
    analyzePackageDependencies env n v st = (r, st) := by
  simp only [analyzePackageDependencies, h]

theorem analyze_selfbad (env : ScanEnv) (n v : String) (st : ScanState)
    (h0 : cacheGet st.cache (n ++ "@" ++ v) = none) (h1 : n ∈ env.badSet) :
    analyzePackageDependencies env n v st =
      ({ isInsecure := true, insecurePackages := [n], analyzedAt := st.now, error := none },
        { cache := cacheSet st.cache (n ++ "@" ++ v)
            { isInsecure := true, insecurePackages := [n], analyzedAt := st.now,
              error := none },
          now := st.now + 1, fetchLog := st.fetchLog }) := by
  simp only [analyzePackageDependencies, h0, if_pos h1]

theorem analyze_throws (env : ScanEnv) (n v : String) (st : ScanState) (msg : String)
    (h0 : cacheGet st.cache (n ++ "@" ++ v) = none) (h1 : n ∉ env.badSet)
    (h2 : env.registry n = .throws msg) :
    analyzePackageDependencies env n v st =
      ({ isInsecure := false, insecurePackages := [], analyzedAt := st.now,
          error := some msg },
        { cache := cacheSet st.cache (n ++ "@" ++ v)
            { isInsecure := false, insecurePackages := [], analyzedAt := st.now,
              error := some msg },
          now := st.now + 1, fetchLog := st.fetchLog ++ [(n ++ "@" ++ v, 0)] }) := by
  simp only [analyzePackageDependencies, h0, if_neg h1, h2]

theorem analyze_noversion (env : ScanEnv) (n v : String) (st : ScanState) (m : PackageMeta)
    (h0 : cacheGet st.cache (n ++ "@" ++ v) = none) (h1 : n ∉ env.badSet)
    (h2 : env.registry n = .meta m) (h3 : versionLookup m v = none) :
    analyzePackageDependencies env n v st =
      ({ isInsecure := false, insecurePackages := [], analyzedAt := st.now,
          error := some "Package version not found" },
        { cache := cacheSet st.cache (n ++ "@" ++ v)
            { isInsecure := false, insecurePackages := [], analyzedAt := st.now,
              error := some "Package version not found" },
          now := st.now + 1, fetchLog := st.fetchLog ++ [(n ++ "@" ++ v, 0)] }) := by
  simp only [analyzePackageDependencies, h0, if_neg h1, h2, h3]

theorem analyze_caches (env : ScanEnv) (n v : String) (st : ScanState)
    (h : cacheGet st.cache (n ++ "@" ++ v) = none) :
    cacheGet (analyzePackageDependencies env n v st).2.cache (n ++ "@" ++ v) =
      some (analyzePackageDependencies env n v st).1 := by
  simp only [analyzePackageDependencies, h]
  split
  · simp [cacheGet_set_self]
  · split
    · simp [cacheGet_set_self]
    · split
      · simp [cacheGet_set_self]
      · simp [cacheGet_set_self]

theorem analyze_main (env : ScanEnv) (n v : String) (st : ScanState)
    (m : PackageMeta) (vi : Manifest)
    (h0 : cacheGet st.cache (n ++ "@" ++ v) = none) (h1 : n ∉ env.badSet)
    (h2 : env.registry n = .meta m) (h3 : versionLookup m v = some vi) :
    analyzePackageDependencies env n v st =
      (let acc1 := traverseDependencies env 3 0 (allDepsOf vi)
        { result := (allDepsOf vi).foldl (fun r p => checkName env.badSet r p.1)
            { isInsecure := false, insecurePackages := [], analyzedAt := st.now,
              error := none },
          visited := [n ++ "@" ++ v], log := [] }
      (acc1.result,
        { cache := cacheSet st.cache (n ++ "@" ++ v) acc1.result,
          now := st.now + 1,
          fetchLog := st.fetchLog ++ [(n ++ "@" ++ v, 0)] ++ acc1.log })) := by
  simp only [analyzePackageDependencies, h0, if_neg h1, h2, h3]

end MetaScan

/-! ### Path equations for the sandbox analyzer -/

namespace SandboxScan

theorem sandbox_hit (w : SandboxWorld) (n v : String) (st : SandboxState)
    (r : AnalysisResult) (h : cacheGet st.cache (n ++ "@" ++ v) = some r) :
    analyzePackageDependencies w n v st = (r, st, []) := by
  simp only [analyzePackageDependencies, h]

theorem sandbox_miss (w : SandboxWorld) (n v : String) (st : SandboxState)
    (h : cacheGet st.cache (n ++ "@" ++ v) = none) :
    analyzePackageDependencies w n v st =
      (let r0 : AnalysisResult :=
        { isInsecure := false, insecurePackages := [], analyzedAt := st.now, error := none }
      let b := analyzeBody w n r0
      let r : AnalysisResult :=
        match b.1 with
        | .ok r => r
        | .error msg => { r0 with error := some msg }
      (r, { cache := cacheSet st.cache (n ++ "@" ++ v) r, now := st.now + 1 },
        b.2.2 ++ (match b.2.1 with
          | some dir => [FsEvent.rmTried dir w.rmOk]
          | none => []))) := by
  simp only [analyzePackageDependencies, h]

theorem sandbox_caches (w : SandboxWorld) (n v : String) (st : SandboxState)
    (h : cacheGet st.cache (n ++ "@" ++ v) = none) :
    cacheGet (analyzePackageDependencies w n v st).2.1.cache (n ++ "@" ++ v) =
      some (analyzePackageDependencies w n v st).1 := by
  simp only [analyzePackageDependencies, h]
  exact cacheGet_set_self _ _ _

theorem analyzeBody_rm_irrel (w : SandboxWorld) (b : Bool) (n : String)
    (r0 : AnalysisResult) : analyzeBody { w with rmOk := b } n r0 = analyzeBody w n r0 :=
  rfl

theorem analyzeBody_install_fail (w : SandboxWorld) (n : String) (r0 : AnalysisResult)
    (dir msg : String) (h1 : n ∉ w.badSet) (h2 : w.mkdtempRes = .ok dir)
    (h3 : w.writeRes = .ok ()) (h4 : w.installRes = .error msg) :
    analyzeBody w n r0 =
      (.ok { r0 with error := some ("Installation failed: " ++ msg) }, some dir,
        [FsEvent.mkdtempDone dir, FsEvent.installTried]) := by
  simp only [analyzeBody, if_neg h1, h2, h3, h4]

/-- The event trace of a sandbox scan takes one of three shapes: no events at
all, or a directory creation directly followed by a removal attempt on that
directory, or creation, install and removal attempt on that directory. -/
theorem sandbox_events (w : SandboxWorld) (n v : String) (st : SandboxState) :
    (analyzePackageDependencies w n v st).2.2 = [] ∨
    ∃ dir,
      (analyzePackageDependencies w n v st).2.2 =
          [FsEvent.mkdtempDone dir, FsEvent.rmTried dir w.rmOk] ∨
      (analyzePackageDependencies w n v st).2.2 =
          [FsEvent.mkdtempDone dir, FsEvent.installTried, FsEvent.rmTried dir w.rmOk] := by
  cases hc : cacheGet st.cache (n ++ "@" ++ v) with
  | some r => left; rw [sandbox_hit w n v st r hc]
  | none =>
    simp only [analyzePackageDependencies, hc]
    by_cases hb : n ∈ w.badSet
    · left; simp [analyzeBody, hb]
    · cases hm : w.mkdtempRes with
      | error e => left; simp [analyzeBody, hb, hm]
      | ok dir =>
        right
        refine ⟨dir, ?_⟩
        cases hw2 : w.writeRes with
        | error e => left; simp [analyzeBody, hb, hm, hw2]
        | ok u =>
          cases hi : w.installRes with
          | error msg => right; simp [analyzeBody, hb, hm, hw2, hi]
          | ok u2 =>
            by_cases hnm : w.nodeModulesAccessible = false
            · right; simp [analyzeBody, hb, hm, hw2, hi, hnm]
            · right; simp [analyzeBody, hb, hm, hw2, hi, hnm]

end SandboxScan

/-! ### The retry loop on total failure -/

namespace Fetcher

/-- When every attempt in the window fails, the loop outcome is decided by
the classification of the final attempt's error: a 429 or connection-reset
failure makes the loop exit into an undefined return, anything else is
rethrown. -/
theorem fetchGo_exhaust (world : Nat → NetAttempt) (rj : Bool) :
    ∀ (fuel i : Nat),
      (∀ j, j < fuel → ∃ e, attemptEval rj (world (i + j)) = .error e) →
      0 < fuel →
      ∃ e, attemptEval rj (world (i + fuel - 1)) = .error e ∧
        (fetchGo world rj i fuel).1 =
          (if e.status = some 429 ∨ e.conn = true then FetchResult.undef
            else FetchResult.thrown e) := by
  intro fuel
  induction fuel with
  | zero => intro i _ h0; exact absurd h0 (lt_irrefl 0)
  | succ f ih =>
    intro i hfail _
    obtain ⟨e0, he0⟩ := hfail 0 f.succ_pos
    rw [Nat.add_zero] at he0
    rcases Nat.eq_zero_or_pos f with hf | hf
    · subst hf
      refine ⟨e0, by simpa using he0, ?_⟩
      by_cases h429 : e0.status = some 429
      · simp [fetchGo, he0, h429]
      · by_cases hconn : e0.conn = true
        · simp [fetchGo, he0, h429, hconn]
        · simp [fetchGo, he0, h429, hconn]
    · have hfail2 : ∀ j, j < f → ∃ e, attemptEval rj (world (i + 1 + j)) = .error e := by
        intro j hj
        have h2 := hfail (j + 1) (by omega)
        rwa [show i + (j + 1) = i + 1 + j by omega] at h2
      obtain ⟨e, he, hres⟩ := ih (i + 1) hfail2 hf
      refine ⟨e, ?_, ?_⟩
      · rwa [show i + 1 + f - 1 = i + (f + 1) - 1 by omega] at he
      · by_cases h429 : e0.status = some 429
        · simp only [fetchGo, he0, if_pos h429]
          exact hres
        · by_cases hconn : e0.conn = true
          · simp only [fetchGo, he0, if_neg h429, if_pos hconn]
            exact hres
          · have hf0 : ¬ f = 0 := by omega
            simp only [fetchGo, he0, if_neg h429, if_neg hconn, if_neg hf0]
            exact hres

end Fetcher

/-! ## Claim C1 -/

/-- C1 counterexample: with three attempts all failing with HTTP 429, the
retry loop finishes its final wait and then exits, so fetchWithRetry returns
normally with undefined rather than raising any error to its caller. -/
theorem c1_counterexample :
    (Fetcher.fetchWithRetry w429 true 3).1 = Fetcher.FetchResult.undef ∧
    (∀ e : Fetcher.JsError,
      Fetcher.FetchResult.undef ≠ Fetcher.FetchResult.thrown e) :=
  ⟨by decide, fun _ h => Fetcher.FetchResult.noConfusion h⟩

/-- C1 (amended): when all attempts fail, the outcome is decided by the
class of the final attempt's failure: an error that is neither HTTP 429 nor
a connection reset is re-raised to the caller, while a final 429 or
connection-reset failure makes the loop exit so that the call returns
normally with undefined. -/
theorem c1_theorem (world : Nat → Fetcher.NetAttempt) (rj : Bool) (retries : Nat)
    (hpos : 0 < retries) (hfail : Fetcher.allFail world rj retries) :
    ∃ e, Fetcher.attemptEval rj (world (retries - 1)) = .error e ∧
      (Fetcher.fetchWithRetry world rj retries).1 =
        (if e.status = some 429 ∨ e.conn = true then Fetcher.FetchResult.undef
          else Fetcher.FetchResult.thrown e) := by
  have h := Fetcher.fetchGo_exhaust world rj retries 0
    (fun j hj => by simpa using hfail j hj) hpos
  simpa [Fetcher.fetchWithRetry] using h

/-- C1 witness: the amended claim evaluated on a world of constant HTTP 500
failures with three attempts. -/
theorem c1_witness :
    ∃ e, Fetcher.attemptEval true (w500 (3 - 1)) = .error e ∧
      (Fetcher.fetchWithRetry w500 true 3).1 =
        (if e.status = some 429 ∨ e.conn = true then Fetcher.FetchResult.undef
          else Fetcher.FetchResult.thrown e) :=
  c1_theorem w500 true 3 (by decide) (fun _ _ => ⟨_, rfl⟩)

/-! ## Claim C7 -/

/-- C7 counterexample: a 429 response carrying the present server-supplied
delay 0 does not cause a wait of 0 times 1000 ms; the code falls back to the
exponential backoff and waits 1000 ms before the next attempt. -/
theorem c7_counterexample :
    (Fetcher.fetchWithRetry wRA0 true 3).2 = [1000] ∧ (1000 : Nat) ≠ 0 * 1000 :=
  ⟨by decide, by decide⟩

/-- C7 (amended): on a 429 at attempt i, the wait before the next attempt is
exactly the server-supplied delay converted to milliseconds when a positive
numeric delay is present, and the exponential backoff of 2 to the i times
1000 ms when the header is absent (or zero, which the truthiness test treats
as absent); a 429 carrying delay 2 then a 200 yields the parsed payload
after a 2000 ms wait. -/
theorem c7_theorem (world : Nat → Fetcher.NetAttempt) (rj : Bool) (i fuel : Nat)
    (r : Fetcher.HttpResp) (hfuel : 0 < fuel) (hw : world i = .resp r)
    (h429 : r.status = 429) :
    ((∀ n, r.retryAfter = some n → 0 < n →
        (Fetcher.fetchGo world rj i fuel).2.head? = some (n * 1000)) ∧
      (r.retryAfter = none →
        (Fetcher.fetchGo world rj i fuel).2.head? = some (2 ^ i * 1000))) ∧
    Fetcher.fetchWithRetry wRA2 true 3 =
      (Fetcher.FetchResult.value (Fetcher.FetchValue.json "ok"), [2000]) := by
  cases fuel with
  | zero => omega
  | succ f =>
    refine ⟨⟨?_, ?_⟩, by decide⟩
    · intro n hn hpos
      have ha : Fetcher.attemptEval rj (world i) = .error
          { status := some 429, retryAfterMs := n * 1000, conn := false,
            msg := "429 Too Many Requests" } := by
        simp [Fetcher.attemptEval, hw, h429, hn]
      simp only [Fetcher.fetchGo, ha]
      have hz : n * 1000 ≠ 0 := Nat.mul_ne_zero hpos.ne' (by decide)
      simp [hz]
    · intro hn
      have ha : Fetcher.attemptEval rj (world i) = .error
          { status := some 429, retryAfterMs := 0, conn := false,
            msg := "429 Too Many Requests" } := by
        simp [Fetcher.attemptEval, hw, h429, hn]
      simp only [Fetcher.fetchGo, ha]
      simp

/-- C7 witness: the amended claim evaluated on the world whose first attempt
is a 429 carrying Retry-After 2: the first wait is 2000 ms. -/
theorem c7_witness :
    (Fetcher.fetchGo wRA2 true 0 3).2.head? = some (2 * 1000) :=
  ((c7_theorem wRA2 true 0 3 { status := 429, retryAfter := some 2 }
    (by decide) rfl rfl).1.1) 2 rfl (by decide)

/-! ## Claim C8 -/

/-- C8: an HTTP 404 response is returned to the caller as a normal value on
the attempt that produced it, with no retry and no wait; any other non-2xx
status apart from 429 is retried after a flat 1000 ms wait while attempts
remain. -/
theorem c8_theorem (world : Nat → Fetcher.NetAttempt) (rj : Bool) (i fuel : Nat)
    (r : Fetcher.HttpResp) (hw : world i = .resp r) :
    (r.status = 404 → 0 < fuel →
      Fetcher.fetchGo world rj i fuel =
        (.value (if rj then .json r.body else .raw r), [])) ∧
    (Fetcher.respOk r.status = false → r.status ≠ 404 → r.status ≠ 429 → 1 < fuel →
      Fetcher.fetchGo world rj i fuel =
        ((Fetcher.fetchGo world rj (i + 1) (fuel - 1)).1,
          1000 :: (Fetcher.fetchGo world rj (i + 1) (fuel - 1)).2)) := by
  constructor
  · intro h404 hfuel
    cases fuel with
    | zero => omega
    | succ f =>
      have ha : Fetcher.attemptEval rj (world i) =
          .ok (if rj then .json r.body else .raw r) := by
        simp [Fetcher.attemptEval, hw, h404, Fetcher.respOk]
      simp [Fetcher.fetchGo, ha]
  · intro hok h404 h429 hfuel
    cases fuel with
    | zero => omega
    | succ f =>
      have ha : Fetcher.attemptEval rj (world i) = .error
          { status := none, retryAfterMs := 0, conn := false, msg := "HTTP error" } := by
        simp [Fetcher.attemptEval, hw, hok, h404, h429]
      have hf0 : ¬ f = 0 := by omega
      simp [Fetcher.fetchGo, ha, hf0]

/-- C8 witness: the claim evaluated on a constant-404 world (value returned
on the first attempt, no wait) and on a constant-500 world (flat 1000 ms
wait, then the loop continues at the next attempt). -/
theorem c8_witness :
    Fetcher.fetchGo w404 true 0 3 =
      (Fetcher.FetchResult.value (Fetcher.FetchValue.json "nf"), []) ∧
    Fetcher.fetchGo w500 true 0 3 =
      ((Fetcher.fetchGo w500 true 1 2).1, 1000 :: (Fetcher.fetchGo w500 true 1 2).2) :=
  ⟨(c8_theorem w404 true 0 3 _ rfl).1 rfl (by decide),
    (c8_theorem w500 true 0 3 _ rfl).2 rfl (by decide) (by decide) (by decide)⟩

/-! ## Claim C2 -/

/-- C2 counterexample: scanning the package sharp itself — a member of the
built-in unsafe set — with an empty external insecure set yields an insecure
flag of false and an empty insecure list: the root package's own name is not
checked against the built-in unsafe set. -/
theorem c2_counterexample :
    (MetaScan.analyzePackageDependencies envC2 "sharp" "1.0.0" {}).1.isInsecure = false ∧
    (MetaScan.analyzePackageDependencies envC2 "sharp" "1.0.0" {}).1.insecurePackages = [] ∧
    "sharp" ∈ UNSAFE_DEPENDENCIES := by
  refine ⟨by decide, by decide, by decide⟩

/-- C2 (amended): the root package's own name is checked only against the
externally loaded insecure set — a match returns immediately with the root as
sole insecure package — while every direct dependency name is checked against
both the built-in unsafe set and the external set; each match forces the
insecure flag and appears in the duplicate-free insecure list. -/
theorem c2_theorem (env : MetaScan.ScanEnv) (n v : String) (st : MetaScan.ScanState)
    (m : MetaScan.PackageMeta) (vi : MetaScan.Manifest) :
    (cacheGet st.cache (n ++ "@" ++ v) = none → n ∈ env.badSet →
      (MetaScan.analyzePackageDependencies env n v st).1 =
        { isInsecure := true, insecurePackages := [n], analyzedAt := st.now,
          error := none }) ∧
    (cacheGet st.cache (n ++ "@" ++ v) = none → n ∉ env.badSet →
      env.registry n = .meta m → MetaScan.versionLookup m v = some vi →
      (∀ d ∈ (MetaScan.allDepsOf vi).map Prod.fst,
          (d ∈ UNSAFE_DEPENDENCIES ∨ d ∈ env.badSet) →
          (MetaScan.analyzePackageDependencies env n v st).1.isInsecure = true ∧
            d ∈ (MetaScan.analyzePackageDependencies env n v st).1.insecurePackages) ∧
        (MetaScan.analyzePackageDependencies env n v st).1.insecurePackages.Nodup) := by
  constructor
  · intro h0 h1
    rw [MetaScan.analyze_selfbad env n v st h0 h1]
  · intro h0 h1 h2 h3
    rw [MetaScan.analyze_main env n v st m vi h0 h1 h2 h3]
    dsimp only
    constructor
    · intro d hd hmatch
      have hbase := foldl_checkName_self env.badSet Prod.fst d hmatch
        (MetaScan.allDepsOf vi)
        { isInsecure := false, insecurePackages := [], analyzedAt := st.now,
          error := none } hd
      exact MetaScan.traverseDependencies_result_pres env
        (fun r => r.isInsecure = true ∧ d ∈ r.insecurePackages)
        (fun r nm hr => ⟨checkName_flag _ nm hr.1, checkName_subset _ nm hr.2⟩)
        3 0 _ _ hbase
    · have hbase : ((MetaScan.allDepsOf vi).foldl (fun r p => checkName env.badSet r p.1)
          { isInsecure := false, insecurePackages := [], analyzedAt := st.now,
            error := none }).insecurePackages.Nodup :=
        foldl_pres (fun r => r.insecurePackages.Nodup) _
          (fun (r : AnalysisResult) (p : String × String) =>
            checkName_nodup env.badSet p.1) _ _ List.nodup_nil
      exact MetaScan.traverseDependencies_result_pres env
        (fun r => r.insecurePackages.Nodup)
        (fun r nm hr => checkName_nodup _ nm hr) 3 0 _ _ hbase

/-- C2 witness: scanning a package that declares sharp as a direct
dependency flags the scan insecure and records sharp. -/
theorem c2_witness :
    (MetaScan.analyzePackageDependencies envC2w "pkg" "1.0.0" {}).1.isInsecure = true ∧
    "sharp" ∈
      (MetaScan.analyzePackageDependencies envC2w "pkg" "1.0.0" {}).1.insecurePackages :=
  ((c2_theorem envC2w "pkg" "1.0.0" {} mC2w viC2w).2 (by decide) (by decide)
    (by decide) (by decide)).1 "sharp" (by decide) (by decide)

/-! ## Claim C9 -/

/-- C9 counterexample: when the requested version's manifest is absent the
scan's error field is the string Package version not found, which differs
from the claimed string version not found. -/
theorem c9_counterexample :
    (MetaScan.analyzePackageDependencies envC9 "a" "1.0.0" {}).1.error =
      some "Package version not found" ∧
    (some "Package version not found" : Option String) ≠ some "version not found" :=
  ⟨by decide, by decide⟩

/-- C9 (amended): when the metadata fetch succeeds but the requested
version's manifest is absent, the scan returns a result whose error field is
the string Package version not found and whose insecure flag is false. -/
theorem c9_theorem (env : MetaScan.ScanEnv) (n v : String) (st : MetaScan.ScanState)
    (m : MetaScan.PackageMeta)
    (h0 : cacheGet st.cache (n ++ "@" ++ v) = none)
    (h1 : n ∉ env.badSet)
    (h2 : env.registry n = .meta m)
    (h3 : MetaScan.versionLookup m v = none) :
    (MetaScan.analyzePackageDependencies env n v st).1.error =
        some "Package version not found" ∧
    (MetaScan.analyzePackageDependencies env n v st).1.isInsecure = false := by
  rw [MetaScan.analyze_noversion env n v st m h0 h1 h2 h3]
  exact ⟨rfl, rfl⟩

/-- C9 witness: the amended claim evaluated on the concrete registry where
version 1.0.0 of package a is absent. -/
theorem c9_witness :
    (MetaScan.analyzePackageDependencies envC9 "a" "1.0.0" {}).1.error =
        some "Package version not found" ∧
    (MetaScan.analyzePackageDependencies envC9 "a" "1.0.0" {}).1.isInsecure = false :=
  c9_theorem envC9 "a" "1.0.0" {} { latest := none, versions := some [("2.0.0", {})] }
    (by decide) (by decide) (by decide) (by decide)

/-! ## Claim C3 -/

/-- Combined log properties of a full traversal started at the root: every
logged fetch lies at level at most 3, the logged edge keys are distinct, and
the root's own cache key is never among them. -/
theorem traverse_log_props (env : MetaScan.ScanEnv) (key : String)
    (deps : List (String × String)) (r1 : AnalysisResult) :
    (∀ e ∈ (MetaScan.traverseDependencies env 3 0 deps
        { result := r1, visited := [key], log := [] }).log, e.2 ≤ 3) ∧
    ((MetaScan.traverseDependencies env 3 0 deps
        { result := r1, visited := [key], log := [] }).log.map Prod.fst).Nodup ∧
    key ∉ (MetaScan.traverseDependencies env 3 0 deps
        { result := r1, visited := [key], log := [] }).log.map Prod.fst := by
  have hlog := MetaScan.traverseDependencies_loginv env [key] 3 0 deps
    { result := r1, visited := [key], log := [] }
    ⟨List.nodup_nil, by simp, by simp, by simp⟩
  have hle := MetaScan.traverseDependencies_logle env 3 3 0 (by omega) deps
    { result := r1, visited := [key], log := [] }
    (fun e he => absurd he (List.not_mem_nil e))
  obtain ⟨hnd, hsub, hvis, hdisj⟩ := hlog
  exact ⟨hle, hnd, hdisj key (List.mem_singleton_self key)⟩

/-- C3: a metadata-graph scan started with an empty fetch log — over any
registry, including cyclic or deep dependency graphs — issues every metadata
fetch at node level at most 3 below the root, and never fetches the same
name-at-range edge twice (the visited set makes the logged keys distinct). -/
theorem c3_theorem (env : MetaScan.ScanEnv) (n v : String) (st : MetaScan.ScanState)
    (h : st.fetchLog = []) :
    (∀ e ∈ (MetaScan.analyzePackageDependencies env n v st).2.fetchLog, e.2 ≤ 3) ∧
    ((MetaScan.analyzePackageDependencies env n v st).2.fetchLog.map Prod.fst).Nodup := by
  cases hc : cacheGet st.cache (n ++ "@" ++ v) with
  | some r =>
    rw [MetaScan.analyze_hit env n v st r hc]
    simp [h]
  | none =>
    by_cases hb : n ∈ env.badSet
    · rw [MetaScan.analyze_selfbad env n v st hc hb]
      simp [h]
    · cases hr : env.registry n with
      | throws msg =>
        rw [MetaScan.analyze_throws env n v st msg hc hb hr]
        simp [h]
      | meta m =>
        cases hv : MetaScan.versionLookup m v with
        | none =>
          rw [MetaScan.analyze_noversion env n v st m hc hb hr hv]
          simp [h]
        | some vi =>
          rw [MetaScan.analyze_main env n v st m vi hc hb hr hv]
          dsimp only
          rw [h]
          obtain ⟨hle, hnd, hkey⟩ := traverse_log_props env (n ++ "@" ++ v)
            (MetaScan.allDepsOf vi)
            ((MetaScan.allDepsOf vi).foldl (fun r p => checkName env.badSet r p.1)
              { isInsecure := false, insecurePackages := [], analyzedAt := st.now,
                error := none })
          constructor
          · intro e he
            simp only [List.nil_append, List.singleton_append, List.mem_cons] at he
            rcases he with he | he
            · rw [he]; exact Nat.zero_le 3
            · exact hle e he
          · simp only [List.nil_append, List.singleton_append, List.map_cons]
            exact List.nodup_cons.mpr ⟨hkey, hnd⟩

/-- C3 witness: the depth and distinctness properties evaluated on the
cyclic two-package registry where A depends on B and B depends on A; the
scan terminates and its fetch log satisfies both properties. -/
theorem c3_witness :
    (∀ e ∈ (MetaScan.analyzePackageDependencies envAB "A" "1.0.0" {}).2.fetchLog,
      e.2 ≤ 3) ∧
    ((MetaScan.analyzePackageDependencies envAB "A" "1.0.0" {}).2.fetchLog.map
      Prod.fst).Nodup :=
  c3_theorem envAB "A" "1.0.0" {} rfl

/-! ## Claim C4 -/

/-- C4: a second scan of the same package and version returns exactly the
first scan's result and leaves the state — including the fetch log and the
cache — untouched, for both scanners (the sandbox scan additionally emits no
filesystem events the second time); and any cached result is returned
verbatim with the state unchanged. -/
theorem c4_theorem (env : MetaScan.ScanEnv) (w : SandboxScan.SandboxWorld)
    (n v : String) (st : MetaScan.ScanState) (sst : SandboxScan.SandboxState) :
    (MetaScan.analyzePackageDependencies env n v
        (MetaScan.analyzePackageDependencies env n v st).2 =
      MetaScan.analyzePackageDependencies env n v st) ∧
    (SandboxScan.analyzePackageDependencies w n v
        (SandboxScan.analyzePackageDependencies w n v sst).2.1 =
      ((SandboxScan.analyzePackageDependencies w n v sst).1,
        (SandboxScan.analyzePackageDependencies w n v sst).2.1, [])) ∧
    (∀ r, cacheGet st.cache (n ++ "@" ++ v) = some r →
      MetaScan.analyzePackageDependencies env n v st = (r, st)) ∧
    (∀ r, cacheGet sst.cache (n ++ "@" ++ v) = some r →
      SandboxScan.analyzePackageDependencies w n v sst = (r, sst, [])) := by
  refine ⟨?_, ?_, ?_, ?_⟩
  · cases hc : cacheGet st.cache (n ++ "@" ++ v) with
    | some r =>
      have he := MetaScan.analyze_hit env n v st r hc
      rw [he]
      exact he
    | none =>
      have hc2 := MetaScan.analyze_caches env n v st hc
      have he2 := MetaScan.analyze_hit env n v
        (MetaScan.analyzePackageDependencies env n v st).2
        (MetaScan.analyzePackageDependencies env n v st).1 hc2
      rw [he2]
  · cases hc : cacheGet sst.cache (n ++ "@" ++ v) with
    | some r =>
      have he := SandboxScan.sandbox_hit w n v sst r hc
      rw [he]
      exact he
    | none =>
      have hc2 := SandboxScan.sandbox_caches w n v sst hc
      have he2 := SandboxScan.sandbox_hit w n v
        (SandboxScan.analyzePackageDependencies w n v sst).2.1
        (SandboxScan.analyzePackageDependencies w n v sst).1 hc2
      rw [he2]
  · intro r hr
    exact MetaScan.analyze_hit env n v st r hr
  · intro r hr
    exact SandboxScan.sandbox_hit w n v sst r hr

/-- C4 witness: a state whose cache already holds a result for p at 1.0.0
returns that result verbatim with the state unchanged. -/
theorem c4_witness :
    MetaScan.analyzePackageDependencies envThrow "p" "1.0.0" stC4 = (rC4, stC4) :=
  (c4_theorem envThrow wInstallFail "p" "1.0.0" stC4 {}).2.2.1 rC4 (by decide)

/-! ## Claim C5 -/

/-- C5: every sandbox scan that created a temporary directory attempts its
removal before returning (the removal event names the same directory), and
the scan's returned result and state are unchanged whether the removal
succeeds or fails — a cleanup failure is swallowed. -/
theorem c5_theorem (w : SandboxScan.SandboxWorld) (n v : String)
    (st : SandboxScan.SandboxState) :
    (∀ dir, SandboxScan.FsEvent.mkdtempDone dir ∈
        (SandboxScan.analyzePackageDependencies w n v st).2.2 →
      SandboxScan.FsEvent.rmTried dir w.rmOk ∈
        (SandboxScan.analyzePackageDependencies w n v st).2.2) ∧
    (∀ b, (SandboxScan.analyzePackageDependencies { w with rmOk := b } n v st).1 =
        (SandboxScan.analyzePackageDependencies w n v st).1 ∧
      (SandboxScan.analyzePackageDependencies { w with rmOk := b } n v st).2.1 =
        (SandboxScan.analyzePackageDependencies w n v st).2.1) := by
  constructor
  · intro dir hd
    rcases SandboxScan.sandbox_events w n v st with h | ⟨dir2, h | h⟩
    · rw [h] at hd
      exact absurd hd (List.not_mem_nil _)
    · rw [h] at hd ⊢
      simp only [List.mem_cons, List.not_mem_nil, or_false,
        SandboxScan.FsEvent.mkdtempDone.injEq] at hd
      rcases hd with hd | hd
      · rw [hd]; simp
      · exact absurd hd (by simp)
    · rw [h] at hd ⊢
      simp only [List.mem_cons, List.not_mem_nil, or_false,
        SandboxScan.FsEvent.mkdtempDone.injEq] at hd
      rcases hd with hd | hd
      · rw [hd]; simp
      · rcases hd with hd | hd
        · exact absurd hd (by simp)
        · exact absurd hd (by simp)
  · intro b
    cases hc : cacheGet st.cache (n ++ "@" ++ v) with
    | some r =>
      rw [SandboxScan.sandbox_hit w n v st r hc,
        SandboxScan.sandbox_hit { w with rmOk := b } n v st r hc]
      exact ⟨rfl, rfl⟩
    | none =>
      rw [SandboxScan.sandbox_miss w n v st hc,
        SandboxScan.sandbox_miss { w with rmOk := b } n v st hc]
      dsimp only
      rw [SandboxScan.analyzeBody_rm_irrel w b n]
      exact ⟨rfl, rfl⟩

/-- C5 witness: on the successful concrete sandbox world the removal attempt
on the created temporary directory is among the scan's events. -/
theorem c5_witness :
    SandboxScan.FsEvent.rmTried "/tmp/koishi-security-x" true ∈
      (SandboxScan.analyzePackageDependencies wOkSandbox "some-plugin" "1.0.0" {}).2.2 :=
  (c5_theorem wOkSandbox "some-plugin" "1.0.0" {}).1 "/tmp/koishi-security-x" (by decide)

/-! ## Claim C6 -/

/-- C6: a scan never raises — a throwing root metadata fetch is caught into
a returned result whose error field holds the message; a failing install
subprocess is caught into a returned result flagging the installation
failure; and a throwing fetch for one dependency edge only marks the edge
checked, visited and logged while the traversal continues over the remaining
dependencies. -/
theorem c6_theorem (env : MetaScan.ScanEnv) (w : SandboxScan.SandboxWorld)
    (n v : String) (st : MetaScan.ScanState) (sst : SandboxScan.SandboxState)
    (msg dir : String)
    (recurse : Nat → List (String × String) → MetaScan.TravAcc → MetaScan.TravAcc)
    (cd : Nat) (depName range : String) (rest : List (String × String))
    (acc : MetaScan.TravAcc) :
    (cacheGet st.cache (n ++ "@" ++ v) = none → n ∉ env.badSet →
      env.registry n = .throws msg →
      (MetaScan.analyzePackageDependencies env n v st).1 =
        { isInsecure := false, insecurePackages := [], analyzedAt := st.now,
          error := some msg }) ∧
    (cacheGet sst.cache (n ++ "@" ++ v) = none → n ∉ w.badSet →
      w.mkdtempRes = .ok dir → w.writeRes = .ok () → w.installRes = .error msg →
      (SandboxScan.analyzePackageDependencies w n v sst).1 =
        { isInsecure := false, insecurePackages := [], analyzedAt := sst.now,
          error := some ("Installation failed: " ++ msg) }) ∧
    (env.registry depName = .throws msg →
      (depName ++ "@" ++ range) ∉ acc.visited →
      MetaScan.traverseList env recurse cd ((depName, range) :: rest) acc =
        MetaScan.traverseList env recurse cd rest
          { result := checkName env.badSet acc.result depName,
            visited := (depName ++ "@" ++ range) :: acc.visited,
            log := acc.log ++ [(depName ++ "@" ++ range, cd + 1)] }) := by
  refine ⟨?_, ?_, ?_⟩
  · intro h0 h1 h2
    rw [MetaScan.analyze_throws env n v st msg h0 h1 h2]
  · intro h0 h1 h2 h3 h4
    rw [SandboxScan.sandbox_miss w n v sst h0]
    dsimp only
    rw [SandboxScan.analyzeBody_install_fail w n
      { isInsecure := false, insecurePackages := [], analyzedAt := sst.now,
        error := none } dir msg h1 h2 h3 h4]
  · intro hthrow hv
    simp only [MetaScan.traverseList]
    congr 1
    simp only [MetaScan.traverseOne, if_neg hv, hthrow]

/-- C6 witness: the three no-raise behaviors evaluated on concrete worlds —
a throwing registry, a failing installer, and a throwing dependency edge. -/
theorem c6_witness :
    (MetaScan.analyzePackageDependencies envThrow "p" "1.0.0" {}).1 =
      { isInsecure := false, insecurePackages := [], analyzedAt := 0,
        error := some "boom" } ∧
    (SandboxScan.analyzePackageDependencies wInstallFail "p" "1.0.0" {}).1 =
      { isInsecure := false, insecurePackages := [], analyzedAt := 0,
        error := some ("Installation failed: " ++ "boom") } ∧
    MetaScan.traverseList envThrow recC6 0 [("dep", "range1")] accC6 =
      MetaScan.traverseList envThrow recC6 0 []
        { result := checkName envThrow.badSet accC6.result "dep",
          visited := ("dep" ++ "@" ++ "range1") :: accC6.visited,
          log := accC6.log ++ [("dep" ++ "@" ++ "range1", 0 + 1)] } := by
  have h := c6_theorem envThrow wInstallFail "p" "1.0.0" {} {} "boom" "/tmp/d"
    recC6 0 "dep" "range1" [] accC6
  exact ⟨h.1 rfl (List.not_mem_nil _) rfl,
    h.2.1 rfl (List.not_mem_nil _) rfl rfl rfl,
    h.2.2 rfl (List.not_mem_nil _)⟩

/-! ## Claim C10 -/

theorem ResultInv_init (t : Nat) :
    ResultInv
      { isInsecure := false, insecurePackages := [], analyzedAt := t, error := none } := by
  simp [ResultInv]

theorem ResultInv_initerr (t : Nat) (msg : String) :
    ResultInv
      { isInsecure := false, insecurePackages := [], analyzedAt := t,
        error := some msg } := by
  simp [ResultInv]

theorem ResultInv_selfbad (t : Nat) (n : String) :
    ResultInv
      { isInsecure := true, insecurePackages := [n], analyzedAt := t,
        error := none } := by
  simp [ResultInv]

/-- Any result the sandbox try block completes with satisfies the flag
invariant, provided the starting result does. -/
theorem analyzeBody_inv (w : SandboxScan.SandboxWorld) (n : String)
    (r0 : AnalysisResult) (h0 : ResultInv r0) :
    ∀ r, (SandboxScan.analyzeBody w n r0).1 = .ok r → ResultInv r := by
  intro r hr
  by_cases hb : n ∈ w.badSet
  · simp only [SandboxScan.analyzeBody, if_pos hb, Except.ok.injEq] at hr
    rw [← hr]
    constructor
    · intro _; simp
    · intro _; rfl
  · cases hm : w.mkdtempRes with
    | error e => simp [SandboxScan.analyzeBody, if_neg hb, hm] at hr
    | ok dir =>
      cases hw2 : w.writeRes with
      | error e => simp [SandboxScan.analyzeBody, if_neg hb, hm, hw2] at hr
      | ok u =>
        cases hi : w.installRes with
        | error msg2 =>
          simp only [SandboxScan.analyzeBody, if_neg hb, hm, hw2, hi,
            Except.ok.injEq] at hr
          rw [← hr]
          exact h0
        | ok u2 =>
          by_cases hnm : w.nodeModulesAccessible = false
          · simp only [SandboxScan.analyzeBody, if_neg hb, hm, hw2, hi,
              if_pos hnm, Except.ok.injEq] at hr
            rw [← hr]
            exact h0
          · simp only [SandboxScan.analyzeBody, if_neg hb, hm, hw2, hi,
              if_neg hnm, Except.ok.injEq] at hr
            rw [← hr]
            exact foldl_pres ResultInv _
              (fun (r2 : AnalysisResult) (p : String) => checkOne_inv p _ ∘
                checkOne_inv p _) _ _ h0

/-- C10: whenever every cache entry satisfies the flag invariant, the result
returned by either scanner satisfies it — the insecure flag is set exactly
when the insecure list is non-empty — and every entry of the updated caches
still satisfies it. -/
theorem c10_theorem (env : MetaScan.ScanEnv) (w : SandboxScan.SandboxWorld)
    (n v : String) (st : MetaScan.ScanState) (sst : SandboxScan.SandboxState)
    (hc : CacheInv st.cache) (hcs : CacheInv sst.cache) :
    ResultInv (MetaScan.analyzePackageDependencies env n v st).1 ∧
    CacheInv (MetaScan.analyzePackageDependencies env n v st).2.cache ∧
    ResultInv (SandboxScan.analyzePackageDependencies w n v sst).1 ∧
    CacheInv (SandboxScan.analyzePackageDependencies w n v sst).2.1.cache := by
  have hmeta : ResultInv (MetaScan.analyzePackageDependencies env n v st).1 ∧
      CacheInv (MetaScan.analyzePackageDependencies env n v st).2.cache := by
    cases hcache : cacheGet st.cache (n ++ "@" ++ v) with
    | some r =>
      rw [MetaScan.analyze_hit env n v st r hcache]
      exact ⟨cacheGet_inv st.cache _ r hc hcache, hc⟩
    | none =>
      by_cases hb : n ∈ env.badSet
      · rw [MetaScan.analyze_selfbad env n v st hcache hb]
        exact ⟨ResultInv_selfbad st.now n,
          cacheSet_inv st.cache _ _ hc (ResultInv_selfbad st.now n)⟩
      · cases hr : env.registry n with
        | throws msg =>
          rw [MetaScan.analyze_throws env n v st msg hcache hb hr]
          exact ⟨ResultInv_initerr st.now msg,
            cacheSet_inv st.cache _ _ hc (ResultInv_initerr st.now msg)⟩
        | meta m =>
          cases hv : MetaScan.versionLookup m v with
          | none =>
            rw [MetaScan.analyze_noversion env n v st m hcache hb hr hv]
            exact ⟨ResultInv_initerr st.now "Package version not found",
              cacheSet_inv st.cache _ _ hc
                (ResultInv_initerr st.now "Package version not found")⟩
          | some vi =>
            rw [MetaScan.analyze_main env n v st m vi hcache hb hr hv]
            dsimp only
            have hres : ResultInv (MetaScan.traverseDependencies env 3 0
                (MetaScan.allDepsOf vi)
                { result := (MetaScan.allDepsOf vi).foldl
                    (fun r p => checkName env.badSet r p.1)
                    { isInsecure := false, insecurePackages := [],
                      analyzedAt := st.now, error := none },
                  visited := [n ++ "@" ++ v], log := [] }).result := by
              have hbase : ResultInv ((MetaScan.allDepsOf vi).foldl
                  (fun r p => checkName env.badSet r p.1)
                  { isInsecure := false, insecurePackages := [],
                    analyzedAt := st.now, error := none }) :=
                foldl_pres ResultInv _
                  (fun (r2 : AnalysisResult) (p : String × String) =>
                    checkName_inv env.badSet p.1) _ _ (ResultInv_init st.now)
              exact MetaScan.traverseDependencies_result_pres env ResultInv
                (fun r2 nm h2 => checkName_inv env.badSet nm h2) 3 0 _ _ hbase
            exact ⟨hres, cacheSet_inv st.cache _ _ hc hres⟩
  have hsand : ResultInv (SandboxScan.analyzePackageDependencies w n v sst).1 ∧
      CacheInv (SandboxScan.analyzePackageDependencies w n v sst).2.1.cache := by
    cases hcache : cacheGet sst.cache (n ++ "@" ++ v) with
    | some r =>
      rw [SandboxScan.sandbox_hit w n v sst r hcache]
      exact ⟨cacheGet_inv sst.cache _ r hcs hcache, hcs⟩
    | none =>
      rw [SandboxScan.sandbox_miss w n v sst hcache]
      dsimp only
      cases hbody : (SandboxScan.analyzeBody w n
          { isInsecure := false, insecurePackages := [], analyzedAt := sst.now,
            error := none }).1 with
      | ok r2 =>
        dsimp only
        have hinv := analyzeBody_inv w n _ (ResultInv_init sst.now) r2 hbody
        exact ⟨hinv, cacheSet_inv sst.cache _ _ hcs hinv⟩
      | error msg =>
        dsimp only
        exact ⟨ResultInv_initerr sst.now msg,
          cacheSet_inv sst.cache _ _ hcs (ResultInv_initerr sst.now msg)⟩
  exact ⟨hmeta.1, hmeta.2, hsand.1, hsand.2⟩

/-- C10 witness: the invariant evaluated on the cyclic metadata registry and
the successful sandbox world, both starting from an empty cache. -/
theorem c10_witness :
    ResultInv (MetaScan.analyzePackageDependencies envAB "A" "1.0.0" {}).1 ∧
    CacheInv (MetaScan.analyzePackageDependencies envAB "A" "1.0.0" {}).2.cache ∧
    ResultInv
      (SandboxScan.analyzePackageDependencies wOkSandbox "A" "1.0.0" {}).1 ∧
    CacheInv
      (SandboxScan.analyzePackageDependencies wOkSandbox "A" "1.0.0" {}).2.1.cache :=
  c10_theorem envAB wOkSandbox "A" "1.0.0" {} {}
    (fun p hp => absurd hp (List.not_mem_nil p))
    (fun p hp => absurd hp (List.not_mem_nil p))
